import Mathlib

/-!
Verification development for the pipe-framework core
(src/pipe-framework/pipe/core/base.py).

The shallow embedding below translates the step-composition and
pipe-execution engine:

* a frozendict State Container is an association list from string keys to
  values; `Container.copy` is the copy-update method of frozendict
  (update the entry in place when the key exists, append it otherwise);
* Python exceptions become the inductive `PyErr`; fallible code returns
  `Except PyErr`;
* a Step is the inductive `StepM`: a base step (validation schema,
  instance attributes used by dynamic field resolution, and the three
  optional capability methods extract / transform / load), or an AND / OR
  composition produced by the two overloaded operators of `Step`;
* `runStep` is the interpreter for `Step.run`, `Step.__and__.run` and
  `Step.__or__.run`; it threads the step state (required_fields is
  mutated in place by `_parse_dynamic_fields`) and additionally records
  the list of names of the base steps that were executed, so that the
  statements can talk about a branch never being invoked;
* `runPipe` is `BasePipe._run_pipe`; the inspection printing of
  `__print_step` is purely observational in the source (rich console
  output, no effect on control flow) and is therefore not modelled;
* the external validator (the valideer library) is modelled from the
  spec, see `validateSchema`.

Values used as dictionary keys (the result of `getattr` in dynamic field
resolution) are modelled as strings, which is the only case the spec and
the repository exercise.
-/

/-- Python exceptions that the core can raise or observe: the two
framework exceptions from pipe.core.exceptions, the AttributeError of a
failed `getattr`, the TypeError of a duplicate keyword argument in
`dict(**a, **b)`, and arbitrary collaborator exceptions. -/
inductive PyErr where
  | stepValidation (msg : String)
  | stepExecution (msg : String)
  | attrError (nm : String)
  | typeError (k : String)
  | other (n : Nat)

/-- A Python value stored in a container: numbers, strings, nested
frozendicts (the AND operator stores whole result containers), and
captured exceptions (the OR operator stores the caught error). -/
inductive Val where
  | vnat (n : Nat)
  | vstr (s : String)
  | vdict (entries : List (String × Val))
  | vexc (e : PyErr)

/-- A frozendict State Container: insertion-ordered mapping from string
keys to values, with unique keys. -/
abbrev Container := List (String × Val)

/-- Dictionary lookup (`store[k]` / `store.get(k)`). -/
def Container.lookup : Container → String → Option Val
  | [], _ => none
  | (k, v) :: rest, key => if k = key then some v else Container.lookup rest key

/-- Updating one key of a frozendict copy: replace the entry in place
when the key exists, append it otherwise. -/
def Container.set : Container → String → Val → Container
  | [], key, v => [(key, v)]
  | (k, w) :: rest, key, v =>
    if k = key then (k, v) :: rest else (k, w) :: Container.set rest key v

/-- `store.copy(**kwargs)` of frozendict: the new container is the old
one updated with every keyword entry, in order. -/
def Container.copy (c : Container) (kvs : List (String × Val)) : Container :=
  kvs.foldl (fun acc p => Container.set acc p.1 p.2) c

/-- A validation rule for one field of `required_fields`.  The concrete
rule language of the external validator is out of scope; a rule is its
meaning, a predicate on values. -/
abbrev Rule := Val → Bool

/-- The left brace character, written by code point. -/
def lbrace : Char := Char.ofNat 123

/-- The right brace character, written by code point. -/
def rbrace : Char := Char.ofNat 125

/-- Characters that survive the key rewriting of
`_parse_dynamic_fields`: everything except the two braces and the plus
sign. -/
def plainChar (c : Char) : Bool :=
  !(c == lbrace || c == rbrace || c == '+')

/-- The test of `_parse_dynamic_fields` selecting dynamic keys:
`(key.startswith(plus-brace) or key.startswith(brace)) and
key.endswith(close-brace)`. -/
def isDynKey (k : String) : Bool :=
  (k.data.take 2 == ['+', lbrace] || k.data.take 1 == [lbrace]) &&
    (k.data.getLast? == some rbrace)

/-- The attribute name extracted from a dynamic key: the source removes
every brace by a regex substitution and then every plus sign by
`str.replace`, which together keep exactly the plain characters. -/
def attrNameOf (k : String) : String :=
  String.mk (k.data.filter plainChar)

/-- `getattr(self, nm)` over the modelled instance attributes; `none`
is an AttributeError. -/
def lookupAttr : List (String × String) → String → Option String
  | [], _ => none
  | (k, v) :: rest, nm => if k = nm then some v else lookupAttr rest nm

/-- `del required_fields[key]`: remove the (unique) entry of a key. -/
def eraseKey (key : String) : List (String × Rule) → List (String × Rule)
  | [] => []
  | p :: rest => if p.1 = key then rest else p :: eraseKey key rest

/-- `dynamic_config.update(single-entry-dict)`: replace the entry when
the key exists, append it otherwise. -/
def dictUpdate (d : List (String × Rule)) (key : String) (r : Rule) :
    List (String × Rule) :=
  if d.any (fun p => p.1 == key) then
    d.map (fun p => if p.1 == key then (key, r) else p)
  else d ++ [(key, r)]

/-- `dict(**rf, **dyn)`: keyword expansion concatenates the entries and
raises a TypeError on the first key of `dyn` that is already a key of
`rf` (multiple values for a keyword argument). -/
def mergeKw (rf dyn : List (String × Rule)) :
    Except PyErr (List (String × Rule)) :=
  match dyn.find? (fun p => rf.any (fun q => q.1 == p.1)) with
  | some p => .error (.typeError p.1)
  | none => .ok (rf ++ dyn)

/-- The loop of `_parse_dynamic_fields` over a snapshot of the keys of
`required_fields` (iterating the original entries is equivalent because
dictionary keys are unique and each key is deleted at most once).
Returns the mutated `required_fields` together with either the collected
`dynamic_config` or the AttributeError of a failed `getattr`. -/
def parseDynLoop (attrs : List (String × String)) :
    List (String × Rule) → List (String × Rule) → List (String × Rule) →
      List (String × Rule) × Except PyErr (List (String × Rule))
  | [], rf, dyn => (rf, .ok dyn)
  | (k, r) :: rest, rf, dyn =>
    if isDynKey k then
      match lookupAttr attrs (attrNameOf k) with
      | none => (rf, .error (.attrError (attrNameOf k)))
      | some v => parseDynLoop attrs rest (eraseKey k rf) (dictUpdate dyn v r)
    else parseDynLoop attrs rest rf dyn

/-- `Step._parse_dynamic_fields`: run the loop, then reassign
`required_fields = dict(**required_fields, **dynamic_config)`.  The
first component is the value of `required_fields` after the call (the
in-place deletions persist even when an error is raised, the final
reassignment only happens on success); the second component is the
raised exception, if any. -/
def parseDynamicFields (attrs : List (String × String))
    (rf : List (String × Rule)) : List (String × Rule) × Option PyErr :=
  match parseDynLoop attrs rf rf [] with
  | (rf', .error e) => (rf', some e)
  | (rf', .ok dyn) =>
    match mergeKw rf' dyn with
    | .error e => (rf', some e)
    | .ok merged => (merged, none)

/-- Modelled from the spec: the external validation capability (the
valideer library, spec section 6) is not part of the repository.  Given
the schema mapping and a container, every schema key must be present in
the container and satisfy its rule, in which case an adapted mapping
(the validated entries) is returned; otherwise a validation error with a
human-readable message is raised. -/
def validateSchema : List (String × Rule) → Container →
    Except String (List (String × Val))
  | [], _ => .ok []
  | (k, r) :: rest, c =>
    match Container.lookup c k with
    | none => .error ("missing required field " ++ k)
    | some v =>
      if r v then
        match validateSchema rest c with
        | .error m => .error m
        | .ok ad => .ok ((k, v) :: ad)
      else .error ("invalid required field " ++ k)

/-- The tail of `Step.validate`: run the external validator on the
resolved schema, wrap its failure in a StepValidationException naming
the step, and on success return `store.copy(**adapted)`. -/
def applySchema (stepName : String) (rf : List (String × Rule))
    (store : Container) : Except PyErr Container :=
  match validateSchema rf store with
  | .error m =>
    .error (.stepValidation ("Validation for step " ++ stepName ++
      " failed with error " ++ m))
  | .ok adapted => .ok (Container.copy store adapted)

/-- A non-composed step: its validation schema `required_fields`, the
instance attributes consulted by dynamic field resolution, and the three
optional capability methods scanned by `Step.run`. -/
structure BaseStep where
  name : String
  requiredFields : List (String × Rule)
  attrs : List (String × String)
  extract? : Option (Container → Except PyErr Container)
  transform? : Option (Container → Except PyErr Container)
  load? : Option (Container → Except PyErr Container)

/-- A step: a base step, or one of the two compositions built by
`Step.__and__` / `Step.__or__` (the factory binds the operand steps as
the fields obj_a and obj_b of the new step). -/
inductive StepM where
  | base (b : BaseStep)
  | and (a b : StepM)
  | or (a b : StepM)

/-- `Step.validate`: resolve the dynamic fields (mutating
`required_fields`), then validate the container against the resolved
schema.  Returns the updated step state together with the validated
container or the raised exception. -/
def validateB (b : BaseStep) (store : Container) :
    BaseStep × Except PyErr Container :=
  let p := parseDynamicFields b.attrs b.requiredFields
  let b' := { b with requiredFields := p.1 }
  match p.2 with
  | some e => (b', .error e)
  | none => (b', applySchema b.name p.1 store)

/-- The dispatch scan of `Step.run`: invoke the first available method
of `_available_methods` (extract, transform, load, in this order) on the
validated container; raise a StepExecutionException when none exists. -/
def dispatchB (b : BaseStep) (store : Container) : Except PyErr Container :=
  match b.extract? with
  | some f => f store
  | none =>
    match b.transform? with
    | some f => f store
    | none =>
      match b.load? with
      | some f => f store
      | none =>
        .error (.stepExecution
          "You should define one of this methods - extract,transform,load")

/-- The interpreter for running a step.  Returns the step after the run
(required_fields mutations persist on the step object), the names of the
base steps that were executed, in execution order, and the result.

* base step: `Step.run` validates, then dispatches;
* AND step: the run method built by `Step.__and__` runs obj_a and then
  obj_b on the same input; if either raises, the original store is
  returned; on success of both, the two raw results are attached under
  the keys obj_a and obj_b;
* OR step: the run method built by `Step.__or__` runs obj_a; if it
  raises, the error is attached under the key exception and obj_b runs
  on the augmented store, its result returned directly. -/
def runStep : StepM → Container →
    StepM × List String × Except PyErr Container
  | .base b, store =>
    match validateB b store with
    | (b', .error e) => (.base b', [b.name], .error e)
    | (b', .ok store') => (.base b', [b.name], dispatchB b' store')
  | .and a b, store =>
    match runStep a store with
    | (a', ta, .error _) => (.and a' b, ta, .ok store)
    | (a', ta, .ok resa) =>
      match runStep b store with
      | (b', tb, .error _) => (.and a' b', ta ++ tb, .ok store)
      | (b', tb, .ok resb) =>
        (.and a' b', ta ++ tb,
          .ok (Container.copy store
            [("obj_a", .vdict resa), ("obj_b", .vdict resb)]))
  | .or a b, store =>
    match runStep a store with
    | (a', ta, .ok res) => (.or a' b, ta, .ok res)
    | (a', ta, .error e) =>
      match runStep b (Container.set store "exception" (.vexc e)) with
      | (b', tb, rb) => (.or a' b', ta ++ tb, rb)

/-- The hooks of a BasePipe subclass: the interruption predicate and the
before / after hooks (identity by default, overridable). -/
structure PipeHooks where
  interrupt : Container → Bool
  afterPipe : Container → Container
  beforePipe : Container → Container

/-- `BasePipe._run_pipe`: iterate the sequence; run each step on the
current store; if the interruption predicate fires on the intermediate
result, return `after_pipe(intermediate)` without committing it to the
store; otherwise commit and continue; when the sequence is exhausted,
return `after_pipe(store)`.  Returns the updated step objects, the names
of the executed base steps, and the result: on success the pair of the
final committed `self.store` and the returned value, on a step exception
the propagated error (the executor performs no exception handling). -/
def runPipe (P : PipeHooks) : List StepM → Container →
    List StepM × List String × Except PyErr (Container × Container)
  | [], store => ([], [], .ok (store, P.afterPipe store))
  | s :: rest, store =>
    match runStep s store with
    | (s', t, .error e) => (s' :: rest, t, .error e)
    | (s', t, .ok inter) =>
      if P.interrupt inter then
        (s' :: rest, t, .ok (store, P.afterPipe inter))
      else
        match runPipe P rest inter with
        | (rest', t2, out) => (s' :: rest', t ++ t2, out)

/-- A prefix of a pipe runs cleanly: every step succeeds and the
interruption predicate stays false on every intermediate result, so
every intermediate result is committed to the store.  Records the
updated step objects, the accumulated trace, and the final committed
store. -/
inductive RunsClean (P : PipeHooks) :
    List StepM → Container → List StepM → List String → Container → Prop
  | nil (c : Container) : RunsClean P [] c [] [] c
  | cons {s s' : StepM} {rest rest' : List StepM} {c r c' : Container}
      {t ts : List String}
      (hs : runStep s c = (s', t, .ok r))
      (hi : P.interrupt r = false)
      (hrest : RunsClean P rest r rest' ts c') :
      RunsClean P (s :: rest) c (s' :: rest') (t ++ ts) c'

/-- A step behaves as a pure function of its input container: running
it (which may resolve its dynamic fields in place) does not change the
outcome of any later run. -/
def pureStep (s : StepM) : Prop :=
  ∀ c c', (runStep (runStep s c).1 c').2.2 = (runStep s c').2.2

/-- A dynamic key: the attribute name wrapped in braces. -/
def bracedKey (nm : String) : String :=
  String.mk (lbrace :: nm.data ++ [rbrace])

/-- A dynamic key in its second form: the attribute name wrapped in
braces with a leading plus sign. -/
def plusBracedKey (nm : String) : String :=
  String.mk ('+' :: lbrace :: nm.data ++ [rbrace])

/-- Claim-side description of resolution, from the words of the claim:
the entries of required_fields whose keys are not dynamic, which the
resolution leaves in place. -/
def staticKeep (rf : List (String × Rule)) : List (String × Rule) :=
  rf.filter fun p => !(isDynKey p.1)

/-- Claim-side description of resolution, from the words of the claim:
each dynamic entry re-keyed under the runtime value of its attribute,
in order of appearance (the default string is never reached when every
attribute lookup succeeds). -/
def dynList (attrs : List (String × String)) :
    List (String × Rule) → List (String × Rule)
  | [] => []
  | (k, r) :: rest =>
    if isDynKey k then
      ((lookupAttr attrs (attrNameOf k)).getD "", r) :: dynList attrs rest
    else dynList attrs rest

/-- The in-place deletions performed by the resolution loop: erase the
key of every dynamic entry of the first list from the second. -/
def eraseAllDyn : List (String × Rule) → List (String × Rule) →
    List (String × Rule)
  | [], carried => carried
  | (k, _) :: rest, carried =>
    if isDynKey k then eraseAllDyn rest (eraseKey k carried)
    else eraseAllDyn rest carried

/-- The trivially satisfied validation rule, for concrete instances. -/
def ruleAny : Rule := fun _ => true

/-- A base step with no required fields and a single transform method. -/
def mkSimpleStep (nm : String) (f : Container → Except PyErr Container) :
    StepM :=
  .base { name := nm, requiredFields := [], attrs := [],
          extract? := none, transform? := some f, load? := none }

/-- Concrete step whose transform always raises a collaborator error. -/
def wFail : StepM := mkSimpleStep "F" (fun _ => .error (.other 0))

/-- Concrete step whose transform returns its input unchanged. -/
def wOk : StepM := mkSimpleStep "OK" (fun c => .ok c)

/-- Concrete step whose transform returns an empty container. -/
def wNil : StepM := mkSimpleStep "N" (fun _ => .ok [])

/-- Concrete input container for the operator instances. -/
def wStore : Container := [("k", .vnat 9)]

/-- Input container that already holds a key obj_a, for the AND
overwrite counterexample. -/
def ceStore : Container := [("obj_a", .vnat 0)]

/-- Concrete branch steps for the AND success instance. -/
def wA6 : StepM := mkSimpleStep "A6" (fun _ => .ok [("r", .vnat 1)])

/-- Second concrete branch step for the AND success instance. -/
def wB6 : StepM := mkSimpleStep "B6" (fun _ => .ok [("r", .vnat 2)])

/-- Input container for the AND success instance. -/
def wStore6 : Container := [("x", .vnat 3)]

/-- Pipe fixture: first step, writes the key s1. -/
def pS1 : StepM := mkSimpleStep "S1" (fun c => .ok (Container.set c "s1" (.vnat 1)))

/-- Pipe fixture: second step, writes the key stop, which triggers the
interruption predicate of the demo hooks. -/
def pS2 : StepM := mkSimpleStep "S2" (fun c => .ok (Container.set c "stop" (.vnat 1)))

/-- Pipe fixture: third step, writes the key s3; never reached in the
interruption instances. -/
def pS3 : StepM := mkSimpleStep "S3" (fun c => .ok (Container.set c "s3" (.vnat 3)))

/-- Demo pipe hooks: interrupt when the key stop holds 1, and an
after_pipe hook that adds a key post, so that the returned value is
observably different from the committed store. -/
def pHooks : PipeHooks where
  interrupt c := match Container.lookup c "stop" with
    | some (.vnat 1) => true
    | _ => false
  afterPipe c := Container.set c "post" (.vnat 7)
  beforePipe c := c

/-- Committed store of the demo pipe after its first step. -/
def pSt1 : Container := [("s1", .vnat 1)]

/-- Intermediate result of the second step of the demo pipe. -/
def pSt2 : Container := [("s1", .vnat 1), ("stop", .vnat 1)]

/-- Identity pipe hooks: never interrupt, identity before and after. -/
def idHooks : PipeHooks where
  interrupt _ := false
  afterPipe c := c
  beforePipe c := c

/-- Steps of the idempotence instance. -/
def w9Steps : List StepM :=
  [mkSimpleStep "W9a" (fun c => .ok (Container.set c "a" (.vnat 1))),
   mkSimpleStep "W9b" (fun c => .ok (Container.set c "b" (.vnat 2)))]

/-- Initial container of the idempotence instance. -/
def w9Init : Container := [("z", .vnat 0)]

/-- Final container of the idempotence instance. -/
def w9Fin : Container := [("z", .vnat 0), ("a", .vnat 1), ("b", .vnat 2)]

/-- Step of the dynamic-field clash counterexample: a braced key whose
attribute resolves to the literal key users that is also present in
required_fields. -/
def ce8Step : StepM :=
  .base { name := "X",
          requiredFields := [(bracedKey "table_name", ruleAny), ("users", ruleAny)],
          attrs := [("table_name", "users")],
          extract? := none, transform? := some (fun c => .ok c), load? := none }

/-- Container for the dynamic-field clash counterexample. -/
def ce8Store : Container := [("users", .vnat 1)]

/-- Base step of the dynamic-field resolution instance: the braced
table_name key sits first, a static key follows, and a plus-braced key
comes last, exercising both dynamic forms in arbitrary positions. -/
def w8Base : BaseStep :=
  { name := "W8",
    requiredFields := [(bracedKey "table_name", ruleAny), ("id", ruleAny),
                       (plusBracedKey "extra", ruleAny)],
    attrs := [("table_name", "users"), ("extra", "meta")],
    extract? := none, transform? := some (fun c => .ok c), load? := none }

/-- Container for the dynamic-field resolution instance. -/
def w8Store : Container := [("id", .vnat 5), ("users", .vnat 1)]

/-- Base step with empty required_fields for the validation instance. -/
def w7Base : BaseStep :=
  { name := "W7", requiredFields := [], attrs := [],
    extract? := none, transform? := some (fun c => .ok c), load? := none }

/-- Looking up the key just written by a copy-update returns the new
value. -/
theorem lookup_set_self (c : Container) (k : String) (v : Val) :
    Container.lookup (Container.set c k v) k = some v := by
  induction c with
  | nil => simp [Container.set, Container.lookup]
  | cons p rest ih =>
    obtain ⟨k0, w⟩ := p
    by_cases h : k0 = k
    · simp [Container.set, Container.lookup, h]
    · simp [Container.set, Container.lookup, h, ih]

/-- Copy-updating one key leaves the lookup of every other key
unchanged. -/
theorem lookup_set_of_ne (c : Container) (k k' : String) (v : Val)
    (h : k' ≠ k) :
    Container.lookup (Container.set c k v) k' = Container.lookup c k' := by
  induction c with
  | nil => simp [Container.set, Container.lookup, Ne.symm h]
  | cons p rest ih =>
    obtain ⟨k0, w⟩ := p
    by_cases h0 : k0 = k
    · subst h0
      simp [Container.set, Container.lookup, Ne.symm h]
    · by_cases h1 : k0 = k'
      · simp [Container.set, Container.lookup, h0, h1, h]
      · simp [Container.set, Container.lookup, h0, h1, ih]

/-- C1: for all steps A and B and every input container C, if either
branch of the AND composition raises during the composed run, then
running A AND B on C returns C itself unchanged, and no exception
propagates out of the composed step. -/
theorem and_failure_returns_input (a b : StepM) (store : Container)
    (h : (∃ e, (runStep a store).2.2 = .error e) ∨
         (∃ e, (runStep b store).2.2 = .error e)) :
    (runStep (.and a b) store).2.2 = .ok store := by
  rcases ha : runStep a store with ⟨a', ta, ra⟩
  cases ra with
  | error e => simp [runStep, ha]
  | ok resa =>
    rcases hb : runStep b store with ⟨b', tb, rb⟩
    cases rb with
    | error e => simp [runStep, ha, hb]
    | ok resb =>
      rcases h with ⟨e, he⟩ | ⟨e, he⟩
      · rw [ha] at he
        simp at he
      · rw [hb] at he
        simp at he

/-- Witness for C1: a failing first branch makes the AND composition
return the untouched input container. -/
theorem and_failure_returns_input_witness :
    (runStep wFail wStore).2.2 = .error (.other 0) ∧
    (runStep (.and wFail wOk) wStore).2.2 = .ok wStore :=
  ⟨rfl, and_failure_returns_input wFail wOk wStore (.inl ⟨.other 0, rfl⟩)⟩

/-- C2: for all steps A and B and every input container C, if A raises
the exception e, then running A OR B on C runs B on C extended with the
key exception mapped to the captured error, and returns the value of B
directly; the augmented container holds e under the key exception and
agrees with C on every other key. -/
theorem or_failure_attaches_exception (a b : StepM) (store : Container)
    (e : PyErr) (h : (runStep a store).2.2 = .error e) :
    (runStep (.or a b) store).2.2 =
      (runStep b (Container.set store "exception" (.vexc e))).2.2 ∧
    Container.lookup (Container.set store "exception" (.vexc e)) "exception" =
      some (.vexc e) ∧
    ∀ k, k ≠ "exception" →
      Container.lookup (Container.set store "exception" (.vexc e)) k =
        Container.lookup store k := by
  refine ⟨?_, lookup_set_self store "exception" (.vexc e),
    fun k hk => lookup_set_of_ne store "exception" k (.vexc e) hk⟩
  rcases ha : runStep a store with ⟨a', ta, ra⟩
  rw [ha] at h
  simp at h
  subst h
  rcases hb : runStep b (Container.set store "exception" (.vexc e)) with ⟨b', tb, rb⟩
  simp [runStep, ha, hb]

/-- Witness for C2: a failing first branch hands the second branch the
container augmented with the captured exception. -/
theorem or_failure_attaches_exception_witness :
    (runStep wFail wStore).2.2 = .error (.other 0) ∧
    (runStep (.or wFail wOk) wStore).2.2 =
      (runStep wOk (Container.set wStore "exception" (.vexc (.other 0)))).2.2 ∧
    Container.lookup (Container.set wStore "exception" (.vexc (.other 0)))
      "exception" = some (.vexc (.other 0)) :=
  ⟨rfl, (or_failure_attaches_exception wFail wOk wStore (.other 0) rfl).1,
    (or_failure_attaches_exception wFail wOk wStore (.other 0) rfl).2.1⟩

/-- C5: for all steps A and B and every input container C on which A
succeeds, running A OR B on C returns exactly the value of A, and B is
never invoked: the composed run is the updated A, the execution trace of
A alone, and the result of A. -/
theorem or_success_skips_second (a b : StepM) (store r : Container)
    (h : (runStep a store).2.2 = .ok r) :
    runStep (.or a b) store =
      (.or (runStep a store).1 b, (runStep a store).2.1, .ok r) := by
  rcases ha : runStep a store with ⟨a', ta, ra⟩
  rw [ha] at h
  simp at h
  subst h
  simp [runStep, ha]

/-- Witness for C5: a succeeding first branch short-circuits the OR
composition; the trace holds only the first branch. -/
theorem or_success_skips_second_witness :
    (runStep wOk wStore).2.2 = .ok wStore ∧
    runStep (.or wOk wFail) wStore = (.or wOk wFail, ["OK"], .ok wStore) :=
  ⟨rfl, or_success_skips_second wOk wFail wStore wStore rfl⟩

/-- C10: the AND composition evaluates its branches sequentially, A
first: if A raises, B is never invoked at all; the composed run is the
updated A with B untouched, the execution trace of A alone, and the
unchanged input container. -/
theorem and_first_raises_skips_second (a b : StepM) (store : Container)
    (e : PyErr) (h : (runStep a store).2.2 = .error e) :
    runStep (.and a b) store =
      (.and (runStep a store).1 b, (runStep a store).2.1, .ok store) := by
  rcases ha : runStep a store with ⟨a', ta, ra⟩
  rw [ha] at h
  simp at h
  subst h
  simp [runStep, ha]

/-- Witness for C10: with a raising first branch the AND trace holds
only the first branch. -/
theorem and_first_raises_skips_second_witness :
    (runStep wFail wStore).2.2 = .error (.other 0) ∧
    runStep (.and wFail wOk) wStore = (.and wFail wOk, ["F"], .ok wStore) :=
  ⟨rfl, and_first_raises_skips_second wFail wOk wStore (.other 0) rfl⟩

/-- Counterexample for C6: the claim says every original key of C keeps
its original value, but when C already holds the key obj_a, the AND
composition overwrites it with the raw result of the first branch. -/
theorem and_overwrites_colliding_key :
    (runStep (.and wNil wNil) ceStore).2.2 =
      .ok [("obj_a", .vdict []), ("obj_b", .vdict [])] ∧
    Container.lookup ceStore "obj_a" = some (.vnat 0) ∧
    Container.lookup [("obj_a", Val.vdict []), ("obj_b", Val.vdict [])]
      "obj_a" = some (.vdict []) ∧
    Val.vdict [] ≠ Val.vnat 0 :=
  ⟨rfl, rfl, rfl, fun h => Val.noConfusion h⟩

/-- C6 (amended): for all steps A and B and every input container C on
which both succeed, the AND composition returns C copy-updated with the
two raw results under the keys obj_a and obj_b (overwriting any existing
entries at those two keys), and every original key of C other than obj_a
and obj_b keeps its original value. -/
theorem and_success_attaches_results (a b : StepM) (store ra rb : Container)
    (ha : (runStep a store).2.2 = .ok ra)
    (hb : (runStep b store).2.2 = .ok rb) :
    (runStep (.and a b) store).2.2 =
      .ok (Container.set (Container.set store "obj_a" (.vdict ra))
        "obj_b" (.vdict rb)) ∧
    Container.lookup (Container.set (Container.set store "obj_a" (.vdict ra))
      "obj_b" (.vdict rb)) "obj_a" = some (.vdict ra) ∧
    Container.lookup (Container.set (Container.set store "obj_a" (.vdict ra))
      "obj_b" (.vdict rb)) "obj_b" = some (.vdict rb) ∧
    ∀ k, k ≠ "obj_a" → k ≠ "obj_b" →
      Container.lookup (Container.set (Container.set store "obj_a"
        (.vdict ra)) "obj_b" (.vdict rb)) k = Container.lookup store k := by
  refine ⟨?_, ?_, lookup_set_self _ "obj_b" (.vdict rb), ?_⟩
  · rcases ha' : runStep a store with ⟨a', ta, ra'⟩
    rw [ha'] at ha
    simp at ha
    subst ha
    rcases hb' : runStep b store with ⟨b', tb, rb'⟩
    rw [hb'] at hb
    simp at hb
    subst hb
    simp [runStep, ha', hb', Container.copy]
  · rw [lookup_set_of_ne _ "obj_b" "obj_a" _ (by decide)]
    exact lookup_set_self _ "obj_a" (.vdict ra)
  · intro k hk1 hk2
    rw [lookup_set_of_ne _ "obj_b" k _ hk2, lookup_set_of_ne _ "obj_a" k _ hk1]

/-- Witness for the amended C6: both branch results are attached side
by side; the untouched original key x keeps its value. -/
theorem and_success_attaches_results_witness :
    (runStep wA6 wStore6).2.2 = .ok [("r", .vnat 1)] ∧
    (runStep wB6 wStore6).2.2 = .ok [("r", .vnat 2)] ∧
    (runStep (.and wA6 wB6) wStore6).2.2 =
      .ok [("x", .vnat 3), ("obj_a", .vdict [("r", .vnat 1)]),
           ("obj_b", .vdict [("r", .vnat 2)])] :=
  ⟨rfl, rfl, (and_success_attaches_results wA6 wB6 wStore6 _ _ rfl rfl).1⟩

/-- A clean prefix followed by a step whose output fires the
interruption predicate: the pipe stops there, keeps the store at the
last committed value, returns the after hook of the intermediate result,
and never executes the remaining steps. -/
theorem runPipe_interrupt_eq (P : PipeHooks) {pre pre' : List StepM}
    {init c : Container} {tpre : List String}
    (hpre : RunsClean P pre init pre' tpre c)
    (sN sN' : StepM) (rest : List StepM) (tN : List String) (r : Container)
    (hsN : runStep sN c = (sN', tN, .ok r))
    (hint : P.interrupt r = true) :
    runPipe P (pre ++ sN :: rest) init =
      (pre' ++ sN' :: rest, tpre ++ tN, .ok (c, P.afterPipe r)) := by
  induction hpre with
  | nil c0 => simp [runPipe, hsN, hint]
  | cons hs hi hrest ih =>
    have ih' := ih hsN
    simp only [List.cons_append]
    simp [runPipe, hs, hi, ih', List.append_assoc]

/-- C3: when the interruption predicate fires on the output of step N,
the committed store is left at the value committed after step N-1 (the
interrupted result is not committed), while the value returned to the
caller is the after hook applied to the result of step N. -/
theorem interrupted_pipe_store_lags (P : PipeHooks)
    (pre pre' rest : List StepM) (sN sN' : StepM) (init c r : Container)
    (tpre tN : List String)
    (hpre : RunsClean P pre init pre' tpre c)
    (hsN : runStep sN c = (sN', tN, .ok r))
    (hint : P.interrupt r = true) :
    (runPipe P (pre ++ sN :: rest) init).2.2 = .ok (c, P.afterPipe r) := by
  rw [runPipe_interrupt_eq P hpre sN sN' rest tN r hsN hint]

/-- Witness for C3: the demo pipe interrupted after its second step
returns the after hook of the second result while the store keeps only
the first result; the stored and the returned containers observably
differ at the keys stop and post. -/
theorem interrupted_pipe_store_lags_witness :
    (runPipe pHooks [pS1, pS2, pS3] []).2.2 =
      .ok (pSt1, Container.set pSt2 "post" (.vnat 7)) ∧
    Container.lookup pSt1 "stop" = none ∧
    Container.lookup (Container.set pSt2 "post" (.vnat 7)) "stop" =
      some (.vnat 1) := by
  refine ⟨?_, rfl, rfl⟩
  have h := interrupted_pipe_store_lags pHooks [pS1] [pS1] [pS3] pS2 pS2
    ([] : Container) pSt1 pSt2 (["S1"] ++ []) ["S2"]
    (.cons rfl rfl (.nil pSt1)) rfl rfl
  simpa using h

/-- C4: when the interruption predicate first fires on the output of
step N, the pipe stops iterating immediately: it returns the after hook
of the result of step N, and no step after position N is ever executed
(the remaining steps are untouched, the trace stops at step N, and the
outcome does not depend on the remaining steps at all). -/
theorem interrupt_stops_pipe (P : PipeHooks)
    (pre pre' rest : List StepM) (sN sN' : StepM) (init c r : Container)
    (tpre tN : List String)
    (hpre : RunsClean P pre init pre' tpre c)
    (hsN : runStep sN c = (sN', tN, .ok r))
    (hint : P.interrupt r = true) :
    runPipe P (pre ++ sN :: rest) init =
      (pre' ++ sN' :: rest, tpre ++ tN, .ok (c, P.afterPipe r)) :=
  runPipe_interrupt_eq P hpre sN sN' rest tN r hsN hint

/-- Witness for C4: on the sequence S1, S2, S3 with the predicate firing
exactly after S2, the pipe returns the after hook of the S2 result and
the trace is S1, S2 only: S3 is never executed. -/
theorem interrupt_stops_pipe_witness :
    runPipe pHooks [pS1, pS2, pS3] [] =
      ([pS1, pS2, pS3], ["S1", "S2"],
        .ok (pSt1, Container.set pSt2 "post" (.vnat 7))) := by
  have h := interrupt_stops_pipe pHooks [pS1] [pS1] [pS3] pS2 pS2
    ([] : Container) pSt1 pSt2 (["S1"] ++ []) ["S2"]
    (.cons rfl rfl (.nil pSt1)) rfl rfl
  simpa using h

/-- C9: a pipe whose steps all behave as pure functions of their input
container yields the identical outcome when run twice from the same
initial store (the second run reuses the step objects updated by the
first run). -/
theorem pure_pipe_idempotent (P : PipeHooks) (steps : List StepM)
    (init : Container) (h : ∀ s ∈ steps, pureStep s) :
    (runPipe P ((runPipe P steps init).1) init).2.2 =
      (runPipe P steps init).2.2 := by
  revert h
  induction steps generalizing init with
  | nil => intro _; rfl
  | cons s rest ih =>
    intro h
    have hs : pureStep s := h s (List.mem_cons_self s rest)
    have hrest : ∀ x ∈ rest, pureStep x :=
      fun x hx => h x (List.mem_cons_of_mem s hx)
    rcases h1 : runStep s init with ⟨s', t, r⟩
    have hs' : (runStep s' init).2.2 = r := by
      have hx := hs init init
      rw [h1] at hx
      simpa using hx
    rcases h2 : runStep s' init with ⟨s'', t', r'⟩
    rw [h2] at hs'
    simp at hs'
    subst hs'
    cases r' with
    | error e => simp [runPipe, h1, h2]
    | ok inter =>
      cases hint : P.interrupt inter with
      | true => simp [runPipe, h1, h2, hint]
      | false =>
        rcases h3 : runPipe P rest inter with ⟨rest1, t2, out⟩
        have ihr := ih inter hrest
        rw [h3] at ihr
        simp at ihr
        rcases h4 : runPipe P rest1 inter with ⟨rest2, t3, out2⟩
        rw [h4] at ihr
        simp at ihr
        simp [runPipe, h1, h2, hint, h3, h4, ihr]

/-- Witness for C9: a two-step pipe of pure steps run twice from the
same initial store produces the same final pair of committed store and
returned container. -/
theorem pure_pipe_idempotent_witness :
    (runPipe idHooks w9Steps w9Init).2.2 = .ok (w9Fin, w9Fin) ∧
    (runPipe idHooks ((runPipe idHooks w9Steps w9Init).1) w9Init).2.2 =
      .ok (w9Fin, w9Fin) := by
  constructor
  · rfl
  · have hp : ∀ s ∈ w9Steps, pureStep s := by
      intro s hs
      simp [w9Steps] at hs
      rcases hs with h' | h' <;> subst h' <;> intro c c' <;> rfl
    exact (pure_pipe_idempotent idHooks w9Steps w9Init hp).trans rfl

/-- C7: a step whose required_fields mapping is empty never raises a
validation error: its validation phase succeeds and leaves both the step
and the container unchanged, running the step is exactly the capability
dispatch on the untouched container, and hence the run can only return a
StepValidationException if the capability method itself does. -/
theorem empty_required_fields_never_validation_error (b : BaseStep)
    (store : Container) (h : b.requiredFields = []) :
    validateB b store = (b, .ok store) ∧
    runStep (.base b) store = (.base b, [b.name], dispatchB b store) ∧
    ∀ m, dispatchB b store ≠ .error (.stepValidation m) →
      (runStep (.base b) store).2.2 ≠ .error (.stepValidation m) := by
  obtain ⟨nm, rf, ats, ex, tr, lo⟩ := b
  replace h : rf = [] := h
  subst h
  exact ⟨rfl, rfl, fun m hm => hm⟩

/-- Witness for C7: a step with empty required_fields runs its
capability on an arbitrary container without any validation failure. -/
theorem empty_required_fields_never_validation_error_witness :
    w7Base.requiredFields = [] ∧
    runStep (.base w7Base) [("anything", .vnat 0)] =
      (.base w7Base, ["W7"], .ok [("anything", .vnat 0)]) :=
  ⟨rfl, (empty_required_fields_never_validation_error w7Base
    [("anything", .vnat 0)] rfl).2.1⟩

/-- The left brace is not a plain character. -/
theorem plainChar_lbrace : plainChar lbrace = false := rfl

/-- The right brace is not a plain character. -/
theorem plainChar_rbrace : plainChar rbrace = false := rfl

/-- A braced key passes the dynamic-key test of
`_parse_dynamic_fields`. -/
theorem isDynKey_bracedKey (nm : String) : isDynKey (bracedKey nm) = true := by
  unfold isDynKey bracedKey
  have hdata : (String.mk (lbrace :: nm.data ++ [rbrace])).data =
      lbrace :: (nm.data ++ [rbrace]) := rfl
  rw [hdata]
  have h1 : (lbrace :: (nm.data ++ [rbrace])).take 1 = [lbrace] := by
    simp [List.take]
  have h2 : (lbrace :: (nm.data ++ [rbrace])).getLast? = some rbrace := by
    rw [← List.cons_append]
    exact List.getLast?_concat _
  rw [h1, h2]
  simp

/-- Stripping braces and plus signs from a braced key of a plain name
recovers the name. -/
theorem attrNameOf_bracedKey (nm : String) (h : nm.data.all plainChar = true) :
    attrNameOf (bracedKey nm) = nm := by
  unfold attrNameOf bracedKey
  have hdata : (String.mk (lbrace :: nm.data ++ [rbrace])).data =
      lbrace :: (nm.data ++ [rbrace]) := rfl
  rw [hdata]
  have hself : nm.data.filter plainChar = nm.data := by
    rw [List.filter_eq_self]
    intro a ha
    exact (List.all_eq_true.mp h) a ha
  have hfilter : (lbrace :: (nm.data ++ [rbrace])).filter plainChar = nm.data := by
    simp [List.filter_cons, List.filter_append, plainChar_lbrace,
      plainChar_rbrace, hself]
  rw [hfilter]


/-- The plus sign is not a plain character. -/
theorem plainChar_plus : plainChar '+' = false := rfl

/-- A plus-braced key passes the dynamic-key test of
`_parse_dynamic_fields`. -/
theorem isDynKey_plusBracedKey (nm : String) :
    isDynKey (plusBracedKey nm) = true := by
  unfold isDynKey plusBracedKey
  have hdata : (String.mk ('+' :: lbrace :: nm.data ++ [rbrace])).data =
      '+' :: lbrace :: (nm.data ++ [rbrace]) := rfl
  rw [hdata]
  have h1 : ('+' :: lbrace :: (nm.data ++ [rbrace])).take 2 = ['+', lbrace] := by
    simp [List.take]
  have h2 : ('+' :: lbrace :: (nm.data ++ [rbrace])).getLast? = some rbrace := by
    rw [← List.cons_append, ← List.cons_append]
    exact List.getLast?_concat _
  rw [h1, h2]
  simp

/-- Stripping braces and plus signs from a plus-braced key of a plain
name recovers the name. -/
theorem attrNameOf_plusBracedKey (nm : String)
    (h : nm.data.all plainChar = true) :
    attrNameOf (plusBracedKey nm) = nm := by
  unfold attrNameOf plusBracedKey
  have hdata : (String.mk ('+' :: lbrace :: nm.data ++ [rbrace])).data =
      '+' :: lbrace :: (nm.data ++ [rbrace]) := rfl
  rw [hdata]
  have hself : nm.data.filter plainChar = nm.data := by
    rw [List.filter_eq_self]
    intro a ha
    exact (List.all_eq_true.mp h) a ha
  have hfilter : ('+' :: lbrace :: (nm.data ++ [rbrace])).filter plainChar =
      nm.data := by
    simp [List.filter_cons, List.filter_append, plainChar_plus,
      plainChar_lbrace, plainChar_rbrace, hself]
  rw [hfilter]

/-- Updating a dictionary at a fresh key appends the entry. -/
theorem dictUpdate_fresh (d : List (String × Rule)) (v : String) (r : Rule)
    (h : ∀ q ∈ d, q.1 ≠ v) : dictUpdate d v r = d ++ [(v, r)] := by
  unfold dictUpdate
  have hany : (d.any fun p => p.1 == v) = false := by
    rw [Bool.eq_false_iff]
    intro hc
    rw [List.any_eq_true] at hc
    obtain ⟨q, hq, hqv⟩ := hc
    exact h q hq (by simpa using hqv)
  simp [hany]

/-- Keyword merging succeeds and concatenates when no dynamic key is
already a static key. -/
theorem mergeKw_no_clash (rf dyn : List (String × Rule))
    (h : ∀ p ∈ dyn, ∀ q ∈ rf, q.1 ≠ p.1) : mergeKw rf dyn = .ok (rf ++ dyn) := by
  unfold mergeKw
  have hfind : dyn.find? (fun p => rf.any fun q => q.1 == p.1) = none := by
    rw [List.find?_eq_none]
    intro p hp hc
    rw [List.any_eq_true] at hc
    obtain ⟨q, hq, hqp⟩ := hc
    exact h p hp q hq (by simpa using hqp)
  rw [hfind]

/-- Erasures of keys that all differ from the head entry pass over it. -/
theorem eraseAllDyn_cons_keep (todo : List (String × Rule)) :
    ∀ (k : String) (r : Rule) (c : List (String × Rule)),
    (∀ p ∈ todo, p.1 ≠ k) →
    eraseAllDyn todo ((k, r) :: c) = (k, r) :: eraseAllDyn todo c := by
  induction todo with
  | nil => intro k r c _; rfl
  | cons p rest ih =>
    intro k r c h
    obtain ⟨k', r'⟩ := p
    have hk' : k' ≠ k := h (k', r') (List.mem_cons_self _ _)
    by_cases hd : isDynKey k' = true
    · have her : eraseKey k' ((k, r) :: c) = (k, r) :: eraseKey k' c := by
        simp [eraseKey, Ne.symm hk']
      simp only [eraseAllDyn, hd, if_true, her]
      exact ih k r (eraseKey k' c) fun q hq => h q (List.mem_cons_of_mem _ hq)
    · simp only [eraseAllDyn, hd, if_false]
      exact ih k r c fun q hq => h q (List.mem_cons_of_mem _ hq)

/-- Running the erasures of a dictionary against itself keeps exactly
its non-dynamic entries, for unique keys. -/
theorem eraseAllDyn_self : ∀ rf : List (String × Rule),
    (rf.map Prod.fst).Nodup → eraseAllDyn rf rf = staticKeep rf := by
  intro rf
  induction rf with
  | nil => intro _; rfl
  | cons p rest ih =>
    intro hnd
    obtain ⟨k, r⟩ := p
    rw [List.map_cons, List.nodup_cons] at hnd
    obtain ⟨hknotin, hndrest⟩ := hnd
    have hne : ∀ q ∈ rest, q.1 ≠ k := by
      intro q hq hcon
      have hmem2 : q.1 ∈ rest.map Prod.fst := List.mem_map_of_mem Prod.fst hq
      rw [hcon] at hmem2
      exact hknotin hmem2
    by_cases hd : isDynKey k = true
    · have her : eraseKey k ((k, r) :: rest) = rest := by simp [eraseKey]
      simp [eraseAllDyn, hd, her, ih hndrest, staticKeep, List.filter_cons]
    · have hkeep := eraseAllDyn_cons_keep rest k r rest hne
      simp [eraseAllDyn, hd, hkeep, ih hndrest, staticKeep, List.filter_cons]

/-- The resolution loop, fully characterized: when every dynamic key of
the snapshot resolves to an attribute value, the values are pairwise
distinct, and none collides with the accumulated dynamic_config, the
loop erases the dynamic entries from the carried dictionary and appends
the re-keyed entries to the accumulator, in order. -/
theorem parseDynLoop_resolved (attrs : List (String × String)) :
    ∀ (todo carried dyn : List (String × Rule)),
    (∀ p ∈ todo, isDynKey p.1 = true →
      (lookupAttr attrs (attrNameOf p.1)).isSome = true) →
    (∀ p ∈ dynList attrs todo, ∀ q ∈ dyn, q.1 ≠ p.1) →
    ((dynList attrs todo).map Prod.fst).Nodup →
    parseDynLoop attrs todo carried dyn =
      (eraseAllDyn todo carried, .ok (dyn ++ dynList attrs todo)) := by
  intro todo
  induction todo with
  | nil =>
    intro carried dyn _ _ _
    simp [parseDynLoop, eraseAllDyn, dynList]
  | cons p rest ih =>
    intro carried dyn hl hfresh hnd
    obtain ⟨k, r⟩ := p
    by_cases hd : isDynKey k = true
    · have hsome := hl (k, r) (List.mem_cons_self _ _) hd
      rcases Option.isSome_iff_exists.mp hsome with ⟨v, hv⟩
      have hdyncons : dynList attrs ((k, r) :: rest) =
          (v, r) :: dynList attrs rest := by
        simp [dynList, hd, hv]
      rw [hdyncons] at hfresh hnd
      rw [List.map_cons, List.nodup_cons] at hnd
      obtain ⟨hvnotin, hndrest⟩ := hnd
      have hvfresh : ∀ q ∈ dyn, q.1 ≠ v := fun q hq =>
        hfresh (v, r) (List.mem_cons_self _ _) q hq
      have hupd : dictUpdate dyn v r = dyn ++ [(v, r)] :=
        dictUpdate_fresh dyn v r hvfresh
      have hstep : parseDynLoop attrs ((k, r) :: rest) carried dyn =
          parseDynLoop attrs rest (eraseKey k carried) (dictUpdate dyn v r) := by
        simp [parseDynLoop, hd, hv]
      rw [hstep, hupd]
      rw [ih (eraseKey k carried) (dyn ++ [(v, r)])
        (fun q hq hdq => hl q (List.mem_cons_of_mem _ hq) hdq)
        (by
          intro p1 hp1 q hq
          rcases List.mem_append.mp hq with hq1 | hq2
          · exact hfresh p1 (List.mem_cons_of_mem _ hp1) q hq1
          · have hq3 : q = (v, r) := by simpa using hq2
            rw [hq3]
            intro hcon
            exact hvnotin (hcon ▸ List.mem_map_of_mem Prod.fst hp1))
        hndrest]
      have hera : eraseAllDyn ((k, r) :: rest) carried =
          eraseAllDyn rest (eraseKey k carried) := by
        simp [eraseAllDyn, hd]
      rw [hera, hdyncons]
      simp
    · have hdyncons : dynList attrs ((k, r) :: rest) = dynList attrs rest := by
        simp [dynList, hd]
      rw [hdyncons] at hfresh hnd
      have hstep : parseDynLoop attrs ((k, r) :: rest) carried dyn =
          parseDynLoop attrs rest carried dyn := by
        simp [parseDynLoop, hd]
      have hera : eraseAllDyn ((k, r) :: rest) carried =
          eraseAllDyn rest carried := by
        simp [eraseAllDyn, hd]
      rw [hstep, hera, hdyncons]
      exact ih carried dyn
        (fun q hq hdq => hl q (List.mem_cons_of_mem _ hq) hdq) hfresh hnd

/-- `_parse_dynamic_fields`, fully characterized on a dictionary with
unique keys whose dynamic entries all resolve to pairwise distinct
values clashing with no static key: the result keeps the static entries
in place followed by the re-keyed dynamic entries, and no exception is
raised. -/
theorem parseDynamicFields_resolves (attrs : List (String × String))
    (rf : List (String × Rule))
    (hnd : (rf.map Prod.fst).Nodup)
    (hl : ∀ p ∈ rf, isDynKey p.1 = true →
      (lookupAttr attrs (attrNameOf p.1)).isSome = true)
    (hvnd : ((dynList attrs rf).map Prod.fst).Nodup)
    (hclash : ∀ p ∈ dynList attrs rf, ∀ q ∈ staticKeep rf, q.1 ≠ p.1) :
    parseDynamicFields attrs rf = (staticKeep rf ++ dynList attrs rf, none) := by
  unfold parseDynamicFields
  rw [parseDynLoop_resolved attrs rf rf [] hl (by simp) hvnd,
    eraseAllDyn_self rf hnd]
  simp [mergeKw_no_clash (staticKeep rf) (dynList attrs rf) hclash]

/-- A member of the static part is not dynamic. -/
theorem staticKeep_not_dyn (rf : List (String × Rule)) (q : String × Rule)
    (h : q ∈ staticKeep rf) : isDynKey q.1 = false := by
  unfold staticKeep at h
  have h2 := (List.mem_filter.mp h).2
  simpa using h2

/-- A dynamic entry of the schema contributes its re-keyed entry to the
resolved dynamic part. -/
theorem mem_dynList (attrs : List (String × String)) (k : String) (r : Rule)
    (v : String) : ∀ rf : List (String × Rule), (k, r) ∈ rf →
    isDynKey k = true → lookupAttr attrs (attrNameOf k) = some v →
    (v, r) ∈ dynList attrs rf := by
  intro rf
  induction rf with
  | nil => intro h _ _; cases h
  | cons p rest ih =>
    intro hmem hd hv
    rcases List.mem_cons.mp hmem with heq | hmem'
    · rw [← heq]
      simp [dynList, hd, hv]
    · obtain ⟨k', r'⟩ := p
      by_cases hd' : isDynKey k' = true
      · simp only [dynList, hd', if_true]
        exact List.mem_cons_of_mem _ (ih hmem' hd hv)
      · simp only [dynList, hd', if_false]
        exact ih hmem' hd hv

/-- Counterexample for C8: with required_fields holding the braced key
of table_name next to the literal key users, and the attribute
table_name resolving to users, the first validation call does not
validate as if the schema contained the key users: the keyword merge of
the static and the re-keyed entries raises a duplicate-key TypeError,
while validating against the re-keyed schema alone would succeed. -/
theorem dynamic_field_clash_raises :
    (runStep ce8Step ce8Store).2.2 = .error (.typeError "users") ∧
    applySchema "X" [("users", ruleAny)] ce8Store = .ok ce8Store :=
  ⟨rfl, rfl⟩

/-- C8 (amended): for every step whose required_fields contains, at any
position, a key written as the braced form or the plus-braced form of a
plain attribute name whose runtime value is v, the first validation
call re-keys that schema entry under v and deletes the literal braced
key, so the step validates as if required_fields had contained the key
v (it validates against the resolved schema, which holds the entry
under v), and after the call the literal braced key no longer exists in
required_fields — provided the resolution does not collide: every
dynamic key of the schema resolves to an attribute value, the resolved
values are pairwise distinct, none equals a static key (otherwise the
keyword merge raises a duplicate-key TypeError, as the counterexample
shows), and none equals the literal braced key itself. -/
theorem dynamic_field_rekey (b : BaseStep) (store : Container)
    (dk nm v : String) (rule : Rule)
    (hname : nm.data.all plainChar = true)
    (hdk : dk = bracedKey nm ∨ dk = plusBracedKey nm)
    (hmem : (dk, rule) ∈ b.requiredFields)
    (hattr : lookupAttr b.attrs nm = some v)
    (hnd : (b.requiredFields.map Prod.fst).Nodup)
    (hl : ∀ p ∈ b.requiredFields, isDynKey p.1 = true →
      (lookupAttr b.attrs (attrNameOf p.1)).isSome = true)
    (hvnd : ((dynList b.attrs b.requiredFields).map Prod.fst).Nodup)
    (hclash : ∀ p ∈ dynList b.attrs b.requiredFields,
      ∀ q ∈ staticKeep b.requiredFields, q.1 ≠ p.1)
    (hrevive : ∀ p ∈ dynList b.attrs b.requiredFields, p.1 ≠ dk) :
    validateB b store =
      ({ b with requiredFields :=
          staticKeep b.requiredFields ++ dynList b.attrs b.requiredFields },
        applySchema b.name
          (staticKeep b.requiredFields ++ dynList b.attrs b.requiredFields)
          store) ∧
    (v, rule) ∈ (validateB b store).1.requiredFields ∧
    ∀ p ∈ (validateB b store).1.requiredFields, p.1 ≠ dk := by
  have hdkdyn : isDynKey dk = true := by
    rcases hdk with h' | h'
    · rw [h']; exact isDynKey_bracedKey nm
    · rw [h']; exact isDynKey_plusBracedKey nm
  have hdknm : attrNameOf dk = nm := by
    rcases hdk with h' | h'
    · rw [h']; exact attrNameOf_bracedKey nm hname
    · rw [h']; exact attrNameOf_plusBracedKey nm hname
  have hres := parseDynamicFields_resolves b.attrs b.requiredFields
    hnd hl hvnd hclash
  have h1 : validateB b store =
      ({ b with requiredFields :=
          staticKeep b.requiredFields ++ dynList b.attrs b.requiredFields },
        applySchema b.name
          (staticKeep b.requiredFields ++ dynList b.attrs b.requiredFields)
          store) := by
    simp [validateB, hres]
  refine ⟨h1, ?_, ?_⟩
  · have hmemv : (v, rule) ∈ dynList b.attrs b.requiredFields :=
      mem_dynList b.attrs dk rule v b.requiredFields hmem hdkdyn
        (by rw [hdknm]; exact hattr)
    rw [h1]
    exact List.mem_append_right _ hmemv
  · intro p hp
    rw [h1] at hp
    replace hp : p ∈ staticKeep b.requiredFields ++
        dynList b.attrs b.requiredFields := hp
    rcases List.mem_append.mp hp with hs | hdyn2
    · intro hcon
      have hfalse := staticKeep_not_dyn b.requiredFields p hs
      rw [hcon, hdkdyn] at hfalse
      exact absurd hfalse (by simp)
    · exact hrevive p hdyn2

/-- Witness for the amended C8: a schema holding the braced table_name
key first, a static key id, and the plus-braced extra key last; the
braced entry is re-keyed under users, the first validation call
validates against the fully resolved schema, and the resolved schema
holds the entry under users. -/
theorem dynamic_field_rekey_witness :
    lookupAttr w8Base.attrs "table_name" = some "users" ∧
    (bracedKey "table_name", ruleAny) ∈ w8Base.requiredFields ∧
    validateB w8Base w8Store =
      ({ w8Base with requiredFields :=
          [("id", ruleAny), ("users", ruleAny), ("meta", ruleAny)] },
        applySchema "W8"
          [("id", ruleAny), ("users", ruleAny), ("meta", ruleAny)] w8Store) ∧
    ("users", ruleAny) ∈ (validateB w8Base w8Store).1.requiredFields := by
  have h := dynamic_field_rekey w8Base w8Store (bracedKey "table_name")
    "table_name" "users" ruleAny (by decide) (Or.inl rfl)
    (List.mem_cons_self _ _) rfl (by decide) (by decide) (by decide)
    (by decide) (by decide)
  exact ⟨rfl, List.mem_cons_self _ _, h.1, h.2.1⟩
